import Mathlib

/-!
Verification of the RL core of `postapply-rl`: the Q-learning follow-up
scheduler (`src/rl_algorithms/q_learning.py`) and the Thompson-sampling
message-style bandit (`src/rl_algorithms/thompson_sampling.py`).

Python dicts are modelled as association lists in insertion order (Python
dicts preserve insertion order, and `max(d, key=d.get)` returns the first
key attaining the maximum, which the tie-breaking of `get_best_action`
depends on).  Python floats are modelled as rationals; every number the
claims touch is exactly representable.  Fallible code (a `KeyError` or a
`max()` over an empty sequence) is modelled with `Option`.
-/

/-- Assoc-list lookup: first binding of the key, as a Python dict read. -/
def alookup {β : Type} (k : String) : List (String × β) → Option β
  | [] => none
  | (k', v) :: rest => if k' = k then some v else alookup k rest

/-- Python dict assignment `d[k] = v`: overwrite the existing binding in
place, otherwise append at the end (insertion order). -/
def dictSet {β : Type} (k : String) (v : β) : List (String × β) → List (String × β)
  | [] => [(k, v)]
  | (k', v') :: rest => if k' = k then (k, v) :: rest else (k', v') :: dictSet k v rest

/-- Left fold of Python `max(..., key=...)` over the remaining pairs: the
current best is replaced only on a strictly greater value, so the first
maximal key wins. -/
def maxFrom (cur : String × ℚ) : List (String × ℚ) → String × ℚ
  | [] => cur
  | (k, v) :: rest => maxFrom (if v > cur.2 then (k, v) else cur) rest

/-- Python `max(d, key=d.get)` over a dict given as an assoc list: fails on
an empty dict. -/
def pyDictMax (l : List (String × ℚ)) : Option (String × ℚ) :=
  match l with
  | [] => none
  | p :: rest => some (maxFrom p rest)

/-- Python `max(xs)` over plain values, `none` on an empty sequence. -/
def pyMax (l : List ℚ) : Option ℚ :=
  match l with
  | [] => none
  | x :: rest => some (rest.foldl max x)

/-- Python `min(xs)` over plain values, `none` on an empty sequence. -/
def pyMin (l : List ℚ) : Option ℚ :=
  match l with
  | [] => none
  | x :: rest => some (rest.foldl min x)

/-- Python `str(b)` for a bool: `"True"` / `"False"`. -/
def pyBoolStr (b : Bool) : String := if b then "True" else "False"

/-- `needle` occurs as a contiguous substring of `hay` (Python `in` on
strings), on character lists. -/
def containsSub (needle : List Char) : List Char → Bool
  | [] => needle.isEmpty
  | c :: rest => needle.isPrefixOf (c :: rest) || containsSub needle rest

/-- Python `s.lower()` (the titles in play are ASCII). -/
def strLower (s : String) : String := String.mk (s.data.map Char.toLower)

/-- `any(word in t for word in words)`. -/
def containsAny (t : String) (words : List String) : Bool :=
  words.any (fun w => containsSub w.data t.data)

/-! ## Q-learning scheduler (`q_learning.py`) -/

/-- State of a `QLearningScheduler` instance: the fields the class keeps
(`episode_rewards` is initialised to `[]` and never written, so it is
omitted). -/
structure QLearningScheduler where
  alpha : ℚ
  gamma : ℚ
  epsilon : ℚ
  actions : List String
  q_table : List (String × List (String × ℚ))
  total_updates : ℕ
deriving DecidableEq, Repr

namespace QLearningScheduler

/-- The fixed action list of `__init__`. -/
def defaultActions : List String :=
  ["wait_1d", "wait_3d", "wait_5d", "wait_7d", "wait_10d", "wait_14d"]

/-- A freshly constructed agent (no `load_from_dict`), with the given
hyperparameters. -/
def init (lr g e : ℚ) : QLearningScheduler :=
  { alpha := lr, gamma := g, epsilon := e,
    actions := defaultActions, q_table := [], total_updates := 0 }

/-- The default-constructed agent (`learning_rate=0.1, discount_factor=0.9,
epsilon=0.1`). -/
def default : QLearningScheduler := init (1/10) (9/10) (1/10)

/-- `_get_state_key`: bucket the day count and join with underscores. -/
def _get_state_key (days : ℤ) (company_type : String) (has_connection : Bool) : String :=
  let day_bucket :=
    if days ≤ 2 then "0-2"
    else if days ≤ 5 then "3-5"
    else if days ≤ 10 then "6-10"
    else "11+"
  day_bucket ++ "_" ++ company_type ++ "_" ++ pyBoolStr has_connection

/-- `{action: 0.0 for action in self.actions}`. -/
def initRow (actions : List String) : List (String × ℚ) :=
  actions.map (fun a => (a, 0))

/-- Lazy initialisation: add an all-zero row for `key` when absent. -/
def ensureState (ag : QLearningScheduler) (key : String) : QLearningScheduler :=
  match alookup key ag.q_table with
  | some _ => ag
  | none => { ag with q_table := dictSet key (initRow ag.actions) ag.q_table }

/-- `update(state, action, reward, next_state)`: the Q-learning rule
`Q(s,a) ← Q(s,a) + α[r + γ·max Q(s',·) − Q(s,a)]`.  `none` models the
`KeyError` when `action` is not in the row, or `max()` on an empty row of
the next state. -/
def update (ag : QLearningScheduler) (state : ℤ × String × Bool) (action : String)
    (reward : ℚ) (next_state : Option (ℤ × String × Bool)) : Option QLearningScheduler :=
  let state_key := _get_state_key state.1 state.2.1 state.2.2
  let ag1 := ensureState ag state_key
  match alookup state_key ag1.q_table with
  | none => none
  | some row =>
    match alookup action row with
    | none => none
    | some current_q =>
      let nextStep : Option (ℚ × QLearningScheduler) :=
        match next_state with
        | none => some (0, ag1)
        | some ns =>
          let next_key := _get_state_key ns.1 ns.2.1 ns.2.2
          let ag2 := ensureState ag1 next_key
          match alookup next_key ag2.q_table with
          | none => none
          | some nrow =>
            match pyMax (nrow.map Prod.snd) with
            | none => none
            | some m => some (m, ag2)
      match nextStep with
      | none => none
      | some (max_next_q, ag2) =>
        let new_q := current_q + ag.alpha * (reward + ag.gamma * max_next_q - current_q)
        match alookup state_key ag2.q_table with
        | none => none
        | some row2 =>
          some { ag2 with
                 q_table := dictSet state_key (dictSet action new_q row2) ag2.q_table,
                 total_updates := ag2.total_updates + 1 }

/-- `get_best_action`: initialise the state if unseen, then
`max(q_values, key=q_values.get)`; returns the chosen pair and the
(possibly extended) post-state, `none` for `max()` over an empty row. -/
def get_best_action (ag : QLearningScheduler) (days : ℤ) (company_type : String)
    (has_connection : Bool) : Option ((String × ℚ) × QLearningScheduler) :=
  let state_key := _get_state_key days company_type has_connection
  let ag1 := ensureState ag state_key
  match alookup state_key ag1.q_table with
  | none => none
  | some row =>
    match pyDictMax row with
    | none => none
    | some best => some (best, ag1)

end QLearningScheduler

/-! ## Thompson-sampling bandit (`thompson_sampling.py`) -/

/-- An `arm_history` entry: the context key, the selected arm and the
per-arm Beta samples of that call. -/
structure ArmHistoryEntry where
  context : String
  arm : String
  samples : List (String × ℚ)
deriving DecidableEq, Repr

/-- State of a `ThompsonSamplingMessenger` instance.  A belief row maps an
arm to its `(alpha, beta)` pair. -/
structure ThompsonSamplingMessenger where
  arms : List String
  distributions : List (String × List (String × (ℚ × ℚ)))
  total_selections : ℕ
  total_successes : ℕ
  arm_history : List ArmHistoryEntry
deriving DecidableEq, Repr

namespace ThompsonSamplingMessenger

/-- The fixed arm list of `__init__`. -/
def defaultArms : List String := ["formal", "casual", "connection_focused"]

/-- A freshly constructed agent (no `load_from_dict`). -/
def init : ThompsonSamplingMessenger :=
  { arms := defaultArms, distributions := [], total_selections := 0,
    total_successes := 0, arm_history := [] }

/-- The recruiter keyword group of `_get_context_key`:
`any(word in title_lower for word in ['recruit', 'talent', 'hr'])`. -/
def recruiterKw (contact_title : String) : Bool :=
  containsAny (strLower contact_title) ["recruit", "talent", "hr"]

/-- The executive keyword group of `_get_context_key`. -/
def executiveKw (contact_title : String) : Bool :=
  containsAny (strLower contact_title) ["vp", "vice president", "chief", "head"]

/-- The director keyword group of `_get_context_key`. -/
def directorKw (contact_title : String) : Bool :=
  containsAny (strLower contact_title) ["director", "lead"]

/-- The title-simplification chain of `_get_context_key`: the first keyword
group that matches the lowercased title wins, `"manager"` as the default. -/
def titleCategory (contact_title : String) : String :=
  if recruiterKw contact_title then "recruiter"
  else if executiveKw contact_title then "executive"
  else if directorKw contact_title then "director"
  else "manager"

/-- `_get_context_key`: simplify the free-text title into one of four
categories by ordered case-insensitive substring groups, then join with the
culture and connection flag. -/
def _get_context_key (contact_title company_culture : String) (has_connection : Bool) : String :=
  titleCategory contact_title ++ "_" ++ company_culture ++ "_" ++ pyBoolStr has_connection

/-- `{arm: {'alpha': 1.0, 'beta': 1.0} for arm in arms}` (uniform prior). -/
def initDistRow (arms : List String) : List (String × (ℚ × ℚ)) :=
  arms.map (fun a => (a, (1, 1)))

/-- Lazy initialisation: add a uniform-prior row for `key` when absent. -/
def ensureContext (ag : ThompsonSamplingMessenger) (key : String) : ThompsonSamplingMessenger :=
  match alookup key ag.distributions with
  | some _ => ag
  | none => { ag with distributions := dictSet key (initDistRow ag.arms) ag.distributions }

/-- The sampling loop of `select_arm`: read each arm's `(alpha, beta)` and
draw from `Beta(alpha, beta)`.  The draw itself is randomness, abstracted
as the function `draw`; `none` models the `KeyError` on a row missing an
arm. -/
def sampleArms (arms : List String) (row : List (String × (ℚ × ℚ)))
    (draw : String → ℚ) : Option (List (String × ℚ)) :=
  match arms with
  | [] => some []
  | a :: rest =>
    match alookup a row with
    | none => none
    | some _ =>
      match sampleArms rest row draw with
      | none => none
      | some tl => some ((a, draw a) :: tl)

/-- `select_arm`: initialise the context if unseen, sample every arm, pick
the arm with the highest sample, then record the selection (counter and
history).  `draw` stands for the `np.random.beta` draws of this call. -/
def select_arm (ag : ThompsonSamplingMessenger) (contact_title company_culture : String)
    (has_connection : Bool) (draw : String → ℚ) :
    Option (String × ThompsonSamplingMessenger) :=
  let context_key := _get_context_key contact_title company_culture has_connection
  let ag1 := ensureContext ag context_key
  match alookup context_key ag1.distributions with
  | none => none
  | some row =>
    match sampleArms ag1.arms row draw with
    | none => none
    | some samples =>
      match pyDictMax samples with
      | none => none
      | some best =>
        let selected_arm := best.1
        some (selected_arm,
          { ag1 with
            total_selections := ag1.total_selections + 1,
            arm_history := ag1.arm_history ++
              [{ context := context_key, arm := selected_arm, samples := samples }] })

/-- `update`: initialise the context if unseen, then bump `alpha` (and the
global success counter) on a response, else bump `beta`.  `none` models the
`KeyError` when `arm` is not in the row. -/
def update (ag : ThompsonSamplingMessenger) (contact_title company_culture : String)
    (has_connection : Bool) (arm : String) (got_response : Bool) :
    Option ThompsonSamplingMessenger :=
  let context_key := _get_context_key contact_title company_culture has_connection
  let ag1 := ensureContext ag context_key
  match alookup context_key ag1.distributions with
  | none => none
  | some row =>
    match alookup arm row with
    | none => none
    | some ab =>
      if got_response then
        some { ag1 with
               distributions := dictSet context_key (dictSet arm (ab.1 + 1, ab.2) row) ag1.distributions,
               total_successes := ag1.total_successes + 1 }
      else
        some { ag1 with
               distributions := dictSet context_key (dictSet arm (ab.1, ab.2 + 1) row) ag1.distributions }

/-- The per-arm mean loop of `get_arm_probabilities`:
`alpha / (alpha + beta)` for each arm, `none` on a missing arm. -/
def meanLoop (arms : List String) (row : List (String × (ℚ × ℚ))) :
    Option (List (String × ℚ)) :=
  match arms with
  | [] => some []
  | a :: rest =>
    match alookup a row with
    | none => none
    | some ab =>
      match meanLoop rest row with
      | none => none
      | some tl => some ((a, ab.1 / (ab.1 + ab.2)) :: tl)

/-- `get_arm_probabilities`: for an unseen context, `0.5` for every arm;
otherwise the Beta means.  The method performs no writes, so the post-state
it pairs the result with is the receiver itself. -/
def get_arm_probabilities (ag : ThompsonSamplingMessenger)
    (contact_title company_culture : String) (has_connection : Bool) :
    Option (List (String × ℚ) × ThompsonSamplingMessenger) :=
  let context_key := _get_context_key contact_title company_culture has_connection
  match alookup context_key ag.distributions with
  | none => some (ag.arms.map (fun a => (a, 1/2)), ag)
  | some row =>
    match meanLoop ag.arms row with
    | none => none
    | some probs => some (probs, ag)

end ThompsonSamplingMessenger

/-! ## Summary statistics and serialization -/

namespace QLearningScheduler

/-- `get_q_table_summary`: the returned dict, in insertion order, with all
numbers as rationals.  Note the early return on an empty table carries only
the three keys `total_states`, `total_updates`, `avg_q_value`. -/
def get_q_table_summary (ag : QLearningScheduler) : List (String × ℚ) :=
  if ag.q_table = [] then
    [("total_states", 0),
     ("total_updates", (ag.total_updates : ℚ)),
     ("avg_q_value", 0)]
  else
    let all_q_values := (ag.q_table.map (fun p => p.2.map Prod.snd)).flatten
    [("total_states", (ag.q_table.length : ℚ)),
     ("total_updates", (ag.total_updates : ℚ)),
     ("avg_q_value", if all_q_values.isEmpty then 0
                     else all_q_values.sum / (all_q_values.length : ℚ)),
     ("max_q_value", if all_q_values.isEmpty then 0
                     else (pyMax all_q_values).getD 0),
     ("min_q_value", if all_q_values.isEmpty then 0
                     else (pyMin all_q_values).getD 0)]

/-- The dict produced by `to_dict` (the `last_updated` timestamp carries no
behavioural content and is omitted). -/
structure Snapshot where
  q_table : List (String × List (String × ℚ))
  alpha : ℚ
  gamma : ℚ
  epsilon : ℚ
  total_updates : ℕ
  actions : List String
deriving DecidableEq, Repr

/-- `to_dict`. -/
def to_dict (ag : QLearningScheduler) : Snapshot :=
  { q_table := ag.q_table, alpha := ag.alpha, gamma := ag.gamma,
    epsilon := ag.epsilon, total_updates := ag.total_updates, actions := ag.actions }

/-- `load_from_dict` on a receiver `ag`: every field of the snapshot
(present whenever the snapshot came from `to_dict`) replaces the receiver's. -/
def load_from_dict (_ag : QLearningScheduler) (data : Snapshot) : QLearningScheduler :=
  { alpha := data.alpha, gamma := data.gamma, epsilon := data.epsilon,
    actions := data.actions, q_table := data.q_table,
    total_updates := data.total_updates }

end QLearningScheduler

namespace ThompsonSamplingMessenger

/-- The dict produced by `to_dict` (timestamp omitted); `arm_history` is
not serialized. -/
structure Snapshot where
  distributions : List (String × List (String × (ℚ × ℚ)))
  arms : List String
  total_selections : ℕ
  total_successes : ℕ
deriving DecidableEq, Repr

/-- `to_dict`. -/
def to_dict (ag : ThompsonSamplingMessenger) : Snapshot :=
  { distributions := ag.distributions, arms := ag.arms,
    total_selections := ag.total_selections, total_successes := ag.total_successes }

/-- `load_from_dict` on a receiver `ag`: the serialized fields replace the
receiver's; `arm_history` is untouched. -/
def load_from_dict (ag : ThompsonSamplingMessenger) (data : Snapshot) :
    ThompsonSamplingMessenger :=
  { arms := data.arms, distributions := data.distributions,
    total_selections := data.total_selections,
    total_successes := data.total_successes, arm_history := ag.arm_history }

end ThompsonSamplingMessenger

/-! ## Helper lemmas on the dict model -/

theorem alookup_mem {β : Type} {k : String} {v : β} :
    ∀ {l : List (String × β)}, alookup k l = some v → (k, v) ∈ l := by
  intro l
  induction l with
  | nil => intro h; simp [alookup] at h
  | cons p rest ih =>
    intro h
    obtain ⟨k', v'⟩ := p
    by_cases hk : k' = k
    · subst hk
      simp [alookup] at h
      simp [h]
    · simp [alookup, hk] at h
      exact List.mem_cons_of_mem _ (ih h)

theorem mem_dictSet {β : Type} {k : String} {v : β} {p : String × β} :
    ∀ {l : List (String × β)}, p ∈ dictSet k v l → p = (k, v) ∨ p ∈ l := by
  intro l
  induction l with
  | nil => intro h; simp [dictSet] at h; simp [h]
  | cons q rest ih =>
    intro h
    obtain ⟨k', v'⟩ := q
    by_cases hk : k' = k
    · subst hk
      simp [dictSet] at h
      rcases h with h | h
      · exact Or.inl (by simp [h])
      · exact Or.inr (List.mem_cons_of_mem _ h)
    · simp [dictSet, hk] at h
      rcases h with h | h
      · exact Or.inr (by simp [h])
      · rcases ih h with h' | h'
        · exact Or.inl h'
        · exact Or.inr (List.mem_cons_of_mem _ h')

theorem alookup_dictSet_self {β : Type} (k : String) (v : β) :
    ∀ (l : List (String × β)), alookup k (dictSet k v l) = some v := by
  intro l
  induction l with
  | nil => simp [dictSet, alookup]
  | cons q rest ih =>
    obtain ⟨k', v'⟩ := q
    by_cases hk : k' = k
    · subst hk; simp [dictSet, alookup]
    · simp [dictSet, alookup, hk, ih]

theorem alookup_dictSet_ne {β : Type} {k k' : String} (h : k' ≠ k) (v : β) :
    ∀ (l : List (String × β)), alookup k' (dictSet k v l) = alookup k' l := by
  intro l
  induction l with
  | nil => simp [dictSet, alookup, Ne.symm h]
  | cons q rest ih =>
    obtain ⟨k'', v''⟩ := q
    by_cases hk : k'' = k
    · subst hk
      simp [dictSet, alookup, Ne.symm h]
    · simp [dictSet, alookup, hk, ih]

theorem alookup_of_mem_nodup {β : Type} {k : String} {v : β} :
    ∀ {l : List (String × β)}, (l.map Prod.fst).Nodup → (k, v) ∈ l →
      alookup k l = some v := by
  intro l
  induction l with
  | nil => intro _ h; simp at h
  | cons q rest ih =>
    intro hnd hm
    obtain ⟨k', v'⟩ := q
    simp only [List.map_cons, List.nodup_cons] at hnd
    rcases List.mem_cons.mp hm with h | h
    · obtain ⟨h1, h2⟩ := Prod.mk.injEq .. ▸ h
      subst h1; subst h2
      simp [alookup]
    · have hk : k' ≠ k := by
        intro hkk
        subst hkk
        exact hnd.1 (List.mem_map.mpr ⟨(k', v), h, rfl⟩)
      simp [alookup, hk]
      exact ih hnd.2 h

theorem maxFrom_mem : ∀ (l : List (String × ℚ)) (p : String × ℚ),
    maxFrom p l ∈ p :: l := by
  intro l
  induction l with
  | nil => intro p; simp [maxFrom]
  | cons q rest ih =>
    intro p
    obtain ⟨k, v⟩ := q
    rw [maxFrom]
    split
    · rcases List.mem_cons.mp (ih (k, v)) with h | h
      · rw [h]; simp
      · simp [h]
    · rcases List.mem_cons.mp (ih p) with h | h
      · rw [h]; simp
      · simp [h]

theorem maxFrom_ge : ∀ (l : List (String × ℚ)) (p : String × ℚ),
    ∀ q ∈ p :: l, q.2 ≤ (maxFrom p l).2 := by
  intro l
  induction l with
  | nil => intro p q hq; simp at hq; simp [maxFrom, hq]
  | cons r rest ih =>
    intro p q hq
    obtain ⟨k, v⟩ := r
    rw [maxFrom]
    split
    next hvgt =>
      rcases List.mem_cons.mp hq with h | h
      · rw [h]
        exact le_trans (le_of_lt hvgt) (ih (k, v) (k, v) (List.mem_cons_self _ _))
      · rcases List.mem_cons.mp h with h' | h'
        · rw [h']
          exact ih (k, v) (k, v) (List.mem_cons_self _ _)
        · exact ih (k, v) q (List.mem_cons_of_mem _ h')
    next hvle =>
      rcases List.mem_cons.mp hq with h | h
      · rw [h]
        exact ih p p (List.mem_cons_self _ _)
      · rcases List.mem_cons.mp h with h' | h'
        · rw [h']
          exact le_trans (le_of_not_lt hvle) (ih p p (List.mem_cons_self _ _))
        · exact ih p q (List.mem_cons_of_mem _ h')

/-! ## Claim theorems -/

/-- C1: starting from an empty Q-table with learning rate 0.5 and discount
factor 0.9 (any exploration rate), a single
`update(state=(4,"startup",True), action="wait_5d", reward=10,
next_state=None)` sets that state's `wait_5d` entry to exactly `5.0` while
every other action of the state stays `0.0`, and `get_best_action` on that
state then returns `("wait_5d", 5.0)`. -/
theorem c1_single_update_determinism (e : ℚ) :
    ∃ ag1 : QLearningScheduler,
      QLearningScheduler.update (QLearningScheduler.init (1/2) (9/10) e)
        (4, "startup", true) "wait_5d" 10 none = some ag1
      ∧ alookup "3-5_startup_True" ag1.q_table =
          some [("wait_1d", 0), ("wait_3d", 0), ("wait_5d", 5),
                ("wait_7d", 0), ("wait_10d", 0), ("wait_14d", 0)]
      ∧ ag1.get_best_action 4 "startup" true = some (("wait_5d", 5), ag1) := by
  refine ⟨{ alpha := 1/2, gamma := 9/10, epsilon := e,
            actions := QLearningScheduler.defaultActions,
            q_table := [("3-5_startup_True",
              [("wait_1d", 0), ("wait_3d", 0), ("wait_5d", 5),
               ("wait_7d", 0), ("wait_10d", 0), ("wait_14d", 0)])],
            total_updates := 1 }, ?_, ?_, ?_⟩
  · simp [QLearningScheduler.update, QLearningScheduler.ensureState,
      QLearningScheduler.init, QLearningScheduler._get_state_key, alookup, dictSet,
      QLearningScheduler.initRow, QLearningScheduler.defaultActions, pyBoolStr]
    norm_num
  · simp [alookup]
  · simp [QLearningScheduler.get_best_action, QLearningScheduler.ensureState,
      QLearningScheduler._get_state_key, alookup, pyDictMax, maxFrom, pyBoolStr]
    norm_num

/-- C2: on a context never seen before, `get_arm_probabilities` returns
`0.5` for all three arms; after one `update` with arm `"casual"` and
`got_response=True` on that context, the same query returns exactly `2/3`
for `"casual"` and `0.5` for the other two arms. -/
theorem c2_belief_update_determinism :
    ThompsonSamplingMessenger.init.get_arm_probabilities "Recruiter" "casual" true
      = some ([("formal", 1/2), ("casual", 1/2), ("connection_focused", 1/2)],
              ThompsonSamplingMessenger.init)
    ∧ ∃ ag1 : ThompsonSamplingMessenger,
        ThompsonSamplingMessenger.init.update "Recruiter" "casual" true "casual" true
          = some ag1
        ∧ ag1.get_arm_probabilities "Recruiter" "casual" true
            = some ([("formal", 1/2), ("casual", 2/3), ("connection_focused", 1/2)], ag1) := by
  refine ⟨?_,
    ⟨{ arms := ThompsonSamplingMessenger.defaultArms,
       distributions := [("recruiter_casual_True",
         [("formal", (1, 1)), ("casual", (2, 1)), ("connection_focused", (1, 1))])],
       total_selections := 0, total_successes := 1, arm_history := [] }, ?_, ?_⟩⟩
  · rfl
  · simp [ThompsonSamplingMessenger.update, ThompsonSamplingMessenger.ensureContext,
      ThompsonSamplingMessenger.init, ThompsonSamplingMessenger._get_context_key,
      ThompsonSamplingMessenger.titleCategory, ThompsonSamplingMessenger.recruiterKw,
      ThompsonSamplingMessenger.executiveKw, ThompsonSamplingMessenger.directorKw,
      containsAny, containsSub, strLower, alookup, dictSet,
      ThompsonSamplingMessenger.initDistRow, ThompsonSamplingMessenger.defaultArms, pyBoolStr]
    norm_num
  · simp [ThompsonSamplingMessenger.get_arm_probabilities, ThompsonSamplingMessenger.meanLoop,
      ThompsonSamplingMessenger._get_context_key, ThompsonSamplingMessenger.titleCategory,
      ThompsonSamplingMessenger.recruiterKw, ThompsonSamplingMessenger.executiveKw,
      ThompsonSamplingMessenger.directorKw, containsAny, containsSub, strLower, alookup,
      ThompsonSamplingMessenger.defaultArms, pyBoolStr]
    norm_num

/-- C6, counterexample: on the default agent, whose Q-table is empty, the
summary dict has no `max_q_value` and no `min_q_value` entry at all, so it
does not report those statistics as `0.0`. -/
theorem c6_counterexample :
    alookup "max_q_value" QLearningScheduler.default.get_q_table_summary = none
    ∧ ¬ alookup "max_q_value" QLearningScheduler.default.get_q_table_summary = some 0
    ∧ alookup "min_q_value" QLearningScheduler.default.get_q_table_summary = none := by
  refine ⟨rfl, by decide, rfl⟩

/-- C6, amended: on an agent whose Q-table is empty, `get_q_table_summary`
does not fail and returns exactly the three entries `total_states`,
`total_updates` and `avg_q_value`, reporting the mean Q-value as `0.0`; the
`max_q_value` and `min_q_value` entries are omitted. -/
theorem c6_empty_summary (ag : QLearningScheduler) (h : ag.q_table = []) :
    ag.get_q_table_summary =
      [("total_states", 0), ("total_updates", (ag.total_updates : ℚ)), ("avg_q_value", 0)]
    ∧ alookup "avg_q_value" ag.get_q_table_summary = some 0
    ∧ alookup "max_q_value" ag.get_q_table_summary = none
    ∧ alookup "min_q_value" ag.get_q_table_summary = none := by
  refine ⟨?_, ?_, ?_, ?_⟩ <;> simp [QLearningScheduler.get_q_table_summary, h, alookup]

/-- Witness for C6: the amended statement instantiated at the
default-constructed agent. -/
theorem c6_empty_summary_witness :
    QLearningScheduler.default.q_table = []
    ∧ (QLearningScheduler.default.get_q_table_summary =
        [("total_states", 0),
         ("total_updates", (QLearningScheduler.default.total_updates : ℚ)),
         ("avg_q_value", 0)]
      ∧ alookup "avg_q_value" QLearningScheduler.default.get_q_table_summary = some 0
      ∧ alookup "max_q_value" QLearningScheduler.default.get_q_table_summary = none
      ∧ alookup "min_q_value" QLearningScheduler.default.get_q_table_summary = none) :=
  ⟨rfl, c6_empty_summary QLearningScheduler.default rfl⟩

/-- C7: the four keyword groups of the title classifier are evaluated in
the fixed order recruiter, executive, director, manager-default, so the
first matching group decides the category; in particular
`"VP of Talent Acquisition"` matches the executive group but is classified
`recruiter`. -/
theorem c7_title_precedence :
    (∀ t : String, ThompsonSamplingMessenger.recruiterKw t = true →
        ThompsonSamplingMessenger.titleCategory t = "recruiter")
    ∧ (∀ t : String, ThompsonSamplingMessenger.recruiterKw t = false →
        ThompsonSamplingMessenger.executiveKw t = true →
        ThompsonSamplingMessenger.titleCategory t = "executive")
    ∧ (∀ t : String, ThompsonSamplingMessenger.recruiterKw t = false →
        ThompsonSamplingMessenger.executiveKw t = false →
        ThompsonSamplingMessenger.directorKw t = true →
        ThompsonSamplingMessenger.titleCategory t = "director")
    ∧ (∀ t : String, ThompsonSamplingMessenger.recruiterKw t = false →
        ThompsonSamplingMessenger.executiveKw t = false →
        ThompsonSamplingMessenger.directorKw t = false →
        ThompsonSamplingMessenger.titleCategory t = "manager")
    ∧ ThompsonSamplingMessenger.executiveKw "VP of Talent Acquisition" = true
    ∧ ThompsonSamplingMessenger.titleCategory "VP of Talent Acquisition" = "recruiter" := by
  refine ⟨?_, ?_, ?_, ?_, by decide, by decide⟩
  · intro t h
    simp [ThompsonSamplingMessenger.titleCategory, h]
  · intro t h1 h2
    simp [ThompsonSamplingMessenger.titleCategory, h1, h2]
  · intro t h1 h2 h3
    simp [ThompsonSamplingMessenger.titleCategory, h1, h2, h3]
  · intro t h1 h2 h3
    simp [ThompsonSamplingMessenger.titleCategory, h1, h2, h3]

/-- Witness for C7: each precedence clause applied at a concrete title. -/
theorem c7_title_precedence_witness :
    (ThompsonSamplingMessenger.recruiterKw "VP of Talent Acquisition" = true
      ∧ ThompsonSamplingMessenger.titleCategory "VP of Talent Acquisition" = "recruiter")
    ∧ (ThompsonSamplingMessenger.recruiterKw "Chief of Staff" = false
      ∧ ThompsonSamplingMessenger.executiveKw "Chief of Staff" = true
      ∧ ThompsonSamplingMessenger.titleCategory "Chief of Staff" = "executive")
    ∧ (ThompsonSamplingMessenger.directorKw "Engineering Director" = true
      ∧ ThompsonSamplingMessenger.titleCategory "Engineering Director" = "director")
    ∧ ThompsonSamplingMessenger.titleCategory "Product Manager" = "manager" :=
  ⟨⟨by decide, c7_title_precedence.1 "VP of Talent Acquisition" (by decide)⟩,
   ⟨by decide, by decide,
    c7_title_precedence.2.1 "Chief of Staff" (by decide) (by decide)⟩,
   ⟨by decide,
    c7_title_precedence.2.2.1 "Engineering Director" (by decide) (by decide) (by decide)⟩,
   c7_title_precedence.2.2.2.1 "Product Manager" (by decide) (by decide) (by decide)⟩

/-- C9: querying `get_arm_probabilities` on a context whose key is absent
from the belief table returns `0.5` for each of the three arms and leaves
the agent unchanged (the post-state it returns is the receiver itself: no
row is added, no counter is modified). -/
theorem c9_unseen_context_frame (ag : ThompsonSamplingMessenger)
    (t cu : String) (b : Bool)
    (hArms : ag.arms = ThompsonSamplingMessenger.defaultArms)
    (h : alookup (ThompsonSamplingMessenger._get_context_key t cu b) ag.distributions = none) :
    ag.get_arm_probabilities t cu b =
      some ([("formal", 1/2), ("casual", 1/2), ("connection_focused", 1/2)], ag) := by
  simp [ThompsonSamplingMessenger.get_arm_probabilities, h, hArms,
    ThompsonSamplingMessenger.defaultArms]

/-- Witness for C9: the fresh agent and an unseen context. -/
theorem c9_unseen_context_frame_witness :
    (ThompsonSamplingMessenger.init.arms = ThompsonSamplingMessenger.defaultArms
      ∧ alookup (ThompsonSamplingMessenger._get_context_key "Recruiter" "casual" true)
          ThompsonSamplingMessenger.init.distributions = none)
    ∧ ThompsonSamplingMessenger.init.get_arm_probabilities "Recruiter" "casual" true =
        some ([("formal", 1/2), ("casual", 1/2), ("connection_focused", 1/2)],
              ThompsonSamplingMessenger.init) :=
  ⟨⟨rfl, rfl⟩, c9_unseen_context_frame ThompsonSamplingMessenger.init "Recruiter" "casual" true rfl rfl⟩

/-- C10: the keyword groups are raw case-insensitive substring tests, so
any title whose lowercased text contains `"hr"` anywhere — even inside an
unrelated word — is classified `recruiter`; in particular
`"Chrome Lead"` matches the director/lead group yet classifies as
`recruiter`. -/
theorem c10_hr_substring :
    (∀ t : String, containsSub "hr".data (strLower t).data = true →
        ThompsonSamplingMessenger.titleCategory t = "recruiter")
    ∧ containsSub "hr".data (strLower "Chrome Lead").data = true
    ∧ ThompsonSamplingMessenger.directorKw "Chrome Lead" = true
    ∧ ThompsonSamplingMessenger.titleCategory "Chrome Lead" = "recruiter" := by
  refine ⟨?_, by decide, by decide, by decide⟩
  intro t h
  have hr : ThompsonSamplingMessenger.recruiterKw t = true := by
    simp [ThompsonSamplingMessenger.recruiterKw, containsAny, h]
  simp [ThompsonSamplingMessenger.titleCategory, hr]

/-- Witness for C10: the general clause applied at `"Chrome Lead"`. -/
theorem c10_hr_substring_witness :
    containsSub "hr".data (strLower "Chrome Lead").data = true
    ∧ ThompsonSamplingMessenger.titleCategory "Chrome Lead" = "recruiter" :=
  ⟨by decide, c10_hr_substring.1 "Chrome Lead" (by decide)⟩

/-! ## Counter behaviour (C3) and serialization round-trip (C5) -/

theorem ensureContext_total_selections (ag : ThompsonSamplingMessenger) (k : String) :
    (ag.ensureContext k).total_selections = ag.total_selections := by
  cases h : alookup k ag.distributions <;>
    simp [ThompsonSamplingMessenger.ensureContext, h]

theorem ensureContext_total_successes (ag : ThompsonSamplingMessenger) (k : String) :
    (ag.ensureContext k).total_successes = ag.total_successes := by
  cases h : alookup k ag.distributions <;>
    simp [ThompsonSamplingMessenger.ensureContext, h]

theorem ensureContext_arms (ag : ThompsonSamplingMessenger) (k : String) :
    (ag.ensureContext k).arms = ag.arms := by
  cases h : alookup k ag.distributions <;>
    simp [ThompsonSamplingMessenger.ensureContext, h]

/-- C3: `select_arm` increments the global selection counter by exactly one
and never touches the success counter; `update` never changes the selection
counter and increments the success counter exactly when the response flag
is true. -/
theorem c3_selection_and_success_counters :
    (∀ (ag : ThompsonSamplingMessenger) (t cu : String) (b : Bool) (draw : String → ℚ)
        (a : String) (ag' : ThompsonSamplingMessenger),
        ag.select_arm t cu b draw = some (a, ag') →
        ag'.total_selections = ag.total_selections + 1
        ∧ ag'.total_successes = ag.total_successes)
    ∧ (∀ (ag : ThompsonSamplingMessenger) (t cu : String) (b : Bool) (arm : String) (r : Bool)
        (ag' : ThompsonSamplingMessenger),
        ag.update t cu b arm r = some ag' →
        ag'.total_selections = ag.total_selections
        ∧ ag'.total_successes = ag.total_successes + (if r then 1 else 0)) := by
  constructor
  · intro ag t cu b draw a ag' h
    simp only [ThompsonSamplingMessenger.select_arm] at h
    repeat' split at h
    any_goals exact Option.noConfusion h
    simp only [Option.some.injEq, Prod.mk.injEq] at h
    obtain ⟨-, h2⟩ := h
    subst h2
    exact ⟨by simp [ensureContext_total_selections],
           by simp [ensureContext_total_successes]⟩
  · intro ag t cu b arm r ag' h
    simp only [ThompsonSamplingMessenger.update] at h
    cases r <;> simp only [Bool.false_eq_true, if_false, if_true] at h <;>
      repeat' split at h
    any_goals exact Option.noConfusion h
    · simp only [Option.some.injEq] at h
      subst h
      exact ⟨by simp [ensureContext_total_selections],
             by simp [ensureContext_total_successes]⟩
    · simp only [Option.some.injEq] at h
      subst h
      exact ⟨by simp [ensureContext_total_selections],
             by simp [ensureContext_total_successes]⟩

/-- The post-state of the concrete `select_arm` call of the C3 witness. -/
def c3SelAgent : ThompsonSamplingMessenger :=
  { arms := ThompsonSamplingMessenger.defaultArms,
    distributions := [("recruiter_casual_True",
      ThompsonSamplingMessenger.initDistRow ThompsonSamplingMessenger.defaultArms)],
    total_selections := 1, total_successes := 0,
    arm_history := [ArmHistoryEntry.mk "recruiter_casual_True" "formal"
      [("formal", 0), ("casual", 0), ("connection_focused", 0)]] }

/-- The post-state of the concrete `update` call of the C3 witness. -/
def c3UpdAgent : ThompsonSamplingMessenger :=
  { arms := ThompsonSamplingMessenger.defaultArms,
    distributions := [("recruiter_casual_True",
      [("formal", (1, 1)), ("casual", (2, 1)), ("connection_focused", (1, 1))])],
    total_selections := 0, total_successes := 1, arm_history := [] }

/-- Witness for C3: both clauses applied to concrete calls on the fresh
agent (with all Beta draws equal to `0`). -/
theorem c3_selection_and_success_counters_witness :
    (ThompsonSamplingMessenger.init.select_arm "Recruiter" "casual" true (fun _ => 0)
        = some ("formal", c3SelAgent)
      ∧ c3SelAgent.total_selections = ThompsonSamplingMessenger.init.total_selections + 1
      ∧ c3SelAgent.total_successes = ThompsonSamplingMessenger.init.total_successes)
    ∧ (ThompsonSamplingMessenger.init.update "Recruiter" "casual" true "casual" true
        = some c3UpdAgent
      ∧ c3UpdAgent.total_selections = ThompsonSamplingMessenger.init.total_selections
      ∧ c3UpdAgent.total_successes = ThompsonSamplingMessenger.init.total_successes
          + (if true then 1 else 0)) := by
  have hsel : ThompsonSamplingMessenger.init.select_arm "Recruiter" "casual" true (fun _ => 0)
      = some ("formal", c3SelAgent) := by decide
  have hupd : ThompsonSamplingMessenger.init.update "Recruiter" "casual" true "casual" true
      = some c3UpdAgent := by
    simp [ThompsonSamplingMessenger.update, ThompsonSamplingMessenger.ensureContext,
      ThompsonSamplingMessenger.init, ThompsonSamplingMessenger._get_context_key,
      ThompsonSamplingMessenger.titleCategory, ThompsonSamplingMessenger.recruiterKw,
      ThompsonSamplingMessenger.executiveKw, ThompsonSamplingMessenger.directorKw,
      containsAny, containsSub, strLower, alookup, dictSet,
      ThompsonSamplingMessenger.initDistRow, ThompsonSamplingMessenger.defaultArms,
      pyBoolStr, c3UpdAgent]
    norm_num
  exact ⟨⟨hsel, c3_selection_and_success_counters.1 ThompsonSamplingMessenger.init
      "Recruiter" "casual" true (fun _ => 0) "formal" c3SelAgent hsel⟩,
    ⟨hupd, c3_selection_and_success_counters.2 ThompsonSamplingMessenger.init
      "Recruiter" "casual" true "casual" true c3UpdAgent hupd⟩⟩

/-- C5: serializing and loading into a fresh instance reproduces the
observable behaviour: `get_best_action` of the loaded scheduler agrees with
the original everywhere (its post-state included), and the bandit's
`get_arm_probabilities` returns the same probability dict everywhere. -/
theorem c5_roundtrip :
    (∀ (ag fresh : QLearningScheduler) (d : ℤ) (c : String) (b : Bool),
        (fresh.load_from_dict ag.to_dict).get_best_action d c b
          = ag.get_best_action d c b)
    ∧ (∀ (ag fresh : ThompsonSamplingMessenger) (t cu : String) (b : Bool),
        ((fresh.load_from_dict ag.to_dict).get_arm_probabilities t cu b).map Prod.fst
          = (ag.get_arm_probabilities t cu b).map Prod.fst) := by
  constructor
  · intro ag fresh d c b
    rfl
  · intro ag fresh t cu b
    simp only [ThompsonSamplingMessenger.get_arm_probabilities,
      ThompsonSamplingMessenger.load_from_dict, ThompsonSamplingMessenger.to_dict]
    cases h : alookup (ThompsonSamplingMessenger._get_context_key t cu b) ag.distributions with
    | none => simp [h]
    | some row =>
      cases hm : ThompsonSamplingMessenger.meanLoop ag.arms row <;> simp [h, hm]

/-! ## Totality of get_best_action (C4) -/

/-- Well-formedness of the stored rows as Python dicts: every row is
nonempty with distinct keys (lazy initialization only ever creates such
rows). -/
def rowsWF (ag : QLearningScheduler) : Prop :=
  ∀ p ∈ ag.q_table, p.2 ≠ [] ∧ (p.2.map Prod.fst).Nodup

theorem initRow_keys (actions : List String) :
    (QLearningScheduler.initRow actions).map Prod.fst = actions := by
  induction actions with
  | nil => rfl
  | cons a rest ih => simp [QLearningScheduler.initRow] at ih ⊢; exact ih

theorem initRow_ne_nil {actions : List String} (h : actions ≠ []) :
    QLearningScheduler.initRow actions ≠ [] := by
  cases actions with
  | nil => exact absurd rfl h
  | cons a rest => simp [QLearningScheduler.initRow]

theorem ensureState_lookup (ag : QLearningScheduler) (k : String) :
    ∃ row, alookup k (ag.ensureState k).q_table = some row
      ∧ (alookup k ag.q_table = some row ∨ row = QLearningScheduler.initRow ag.actions) := by
  cases h : alookup k ag.q_table with
  | some r => exact ⟨r, by simp [QLearningScheduler.ensureState, h], Or.inl rfl⟩
  | none =>
    exact ⟨QLearningScheduler.initRow ag.actions,
      by simp [QLearningScheduler.ensureState, h, alookup_dictSet_self], Or.inr rfl⟩

/-- C4: for every state — including a state never seen before —
`get_best_action` on a well-formed agent does not fail: it returns a pair
`(a, v)` and a (possibly lazily extended) post-state in which the state's
row contains `a` with stored value `v`, and `v` is the maximum value of the
row. -/
theorem c4_best_action_total (ag : QLearningScheduler) (d : ℤ) (c : String) (b : Bool)
    (hA : ag.actions ≠ []) (hAnd : ag.actions.Nodup) (hWF : rowsWF ag) :
    ∃ (a : String) (v : ℚ) (ag' : QLearningScheduler) (row : List (String × ℚ)),
      ag.get_best_action d c b = some ((a, v), ag')
      ∧ alookup (QLearningScheduler._get_state_key d c b) ag'.q_table = some row
      ∧ (a, v) ∈ row
      ∧ alookup a row = some v
      ∧ ∀ p ∈ row, p.2 ≤ v := by
  obtain ⟨row, hlook, hcase⟩ := ensureState_lookup ag (QLearningScheduler._get_state_key d c b)
  have hne : row ≠ [] := by
    rcases hcase with h | h
    · exact (hWF _ (alookup_mem h)).1
    · rw [h]; exact initRow_ne_nil hA
  have hnd : (row.map Prod.fst).Nodup := by
    rcases hcase with h | h
    · exact (hWF _ (alookup_mem h)).2
    · rw [h, initRow_keys]; exact hAnd
  cases row with
  | nil => exact absurd rfl hne
  | cons p rest =>
    have hmem : maxFrom p rest ∈ p :: rest := maxFrom_mem rest p
    refine ⟨(maxFrom p rest).1, (maxFrom p rest).2, ag.ensureState
      (QLearningScheduler._get_state_key d c b), p :: rest, ?_, hlook, ?_, ?_, ?_⟩
    · simp only [QLearningScheduler.get_best_action, hlook, pyDictMax]
    · exact hmem
    · exact alookup_of_mem_nodup hnd hmem
    · exact maxFrom_ge rest p

/-- Witness for C4: the default agent queried on a state it has never
seen. -/
theorem c4_best_action_total_witness :
    (QLearningScheduler.default.actions ≠ []
      ∧ QLearningScheduler.default.actions.Nodup
      ∧ rowsWF QLearningScheduler.default)
    ∧ (∃ (a : String) (v : ℚ) (ag' : QLearningScheduler) (row : List (String × ℚ)),
        QLearningScheduler.default.get_best_action 3 "startup" true = some ((a, v), ag')
        ∧ alookup (QLearningScheduler._get_state_key 3 "startup" true) ag'.q_table = some row
        ∧ (a, v) ∈ row
        ∧ alookup a row = some v
        ∧ ∀ p ∈ row, p.2 ≤ v) :=
  ⟨⟨by decide, by decide, by intro p hp; simp [QLearningScheduler.default,
      QLearningScheduler.init] at hp⟩,
   c4_best_action_total QLearningScheduler.default 3 "startup" true (by decide) (by decide)
     (by intro p hp; simp [QLearningScheduler.default, QLearningScheduler.init] at hp)⟩

/-! ## The Beta-parameter invariant (C8) -/

/-- Every `(context, arm)` entry of the belief table has `alpha ≥ 1` and
`beta ≥ 1`. -/
def beliefWF (ag : ThompsonSamplingMessenger) : Prop :=
  ∀ p ∈ ag.distributions, ∀ q ∈ p.2, 1 ≤ q.2.1 ∧ 1 ≤ q.2.2

/-- The states of a `ThompsonSamplingMessenger` reachable from a fresh
instance through `select_arm` (with arbitrary Beta draws) and `update`
calls that do not raise. -/
inductive TSReachable : ThompsonSamplingMessenger → Prop where
  | init : TSReachable ThompsonSamplingMessenger.init
  | select {ag ag' : ThompsonSamplingMessenger} (t cu : String) (b : Bool)
      (draw : String → ℚ) (a : String) :
      TSReachable ag → ag.select_arm t cu b draw = some (a, ag') → TSReachable ag'
  | update {ag ag' : ThompsonSamplingMessenger} (t cu : String) (b : Bool)
      (arm : String) (r : Bool) :
      TSReachable ag → ag.update t cu b arm r = some ag' → TSReachable ag'

theorem initDistRow_mem {arms : List String} {q : String × (ℚ × ℚ)}
    (h : q ∈ ThompsonSamplingMessenger.initDistRow arms) : q.2 = (1, 1) := by
  simp only [ThompsonSamplingMessenger.initDistRow, List.mem_map] at h
  obtain ⟨a, -, rfl⟩ := h
  rfl

theorem beliefWF_ensureContext {ag : ThompsonSamplingMessenger} (h : beliefWF ag)
    (k : String) : beliefWF (ag.ensureContext k) := by
  cases hl : alookup k ag.distributions with
  | some r =>
    intro p hp
    simp only [ThompsonSamplingMessenger.ensureContext, hl] at hp
    exact h p hp
  | none =>
    intro p hp
    simp only [ThompsonSamplingMessenger.ensureContext, hl] at hp
    rcases mem_dictSet hp with rfl | hp'
    · intro q hq
      rw [initDistRow_mem hq]
      exact ⟨le_refl 1, le_refl 1⟩
    · exact h p hp'

theorem select_arm_distributions {ag ag' : ThompsonSamplingMessenger}
    {t cu : String} {b : Bool} {draw : String → ℚ} {a : String}
    (h : ag.select_arm t cu b draw = some (a, ag')) :
    ag'.distributions =
      (ag.ensureContext (ThompsonSamplingMessenger._get_context_key t cu b)).distributions := by
  simp only [ThompsonSamplingMessenger.select_arm] at h
  repeat' split at h
  any_goals exact Option.noConfusion h
  simp only [Option.some.injEq, Prod.mk.injEq] at h
  obtain ⟨-, h2⟩ := h
  subst h2
  rfl

theorem update_distributions {ag ag' : ThompsonSamplingMessenger}
    {t cu : String} {b : Bool} {arm : String} {r : Bool}
    (h : ag.update t cu b arm r = some ag') :
    ∃ row ab,
      alookup (ThompsonSamplingMessenger._get_context_key t cu b)
        (ag.ensureContext (ThompsonSamplingMessenger._get_context_key t cu b)).distributions
        = some row
      ∧ alookup arm row = some ab
      ∧ ag'.distributions = dictSet (ThompsonSamplingMessenger._get_context_key t cu b)
          (dictSet arm (if r then (ab.1 + 1, ab.2) else (ab.1, ab.2 + 1)) row)
          (ag.ensureContext (ThompsonSamplingMessenger._get_context_key t cu b)).distributions := by
  simp only [ThompsonSamplingMessenger.update] at h
  split at h
  · exact Option.noConfusion h
  · rename_i row hrow
    split at h
    · exact Option.noConfusion h
    · rename_i ab hab
      refine ⟨row, ab, hrow, hab, ?_⟩
      cases r with
      | false => injection h with h2; subst h2; rfl
      | true => injection h with h2; subst h2; rfl

theorem beliefWF_select {ag ag' : ThompsonSamplingMessenger}
    {t cu : String} {b : Bool} {draw : String → ℚ} {a : String}
    (hWF : beliefWF ag) (h : ag.select_arm t cu b draw = some (a, ag')) :
    beliefWF ag' := by
  intro p hp
  rw [select_arm_distributions h] at hp
  exact beliefWF_ensureContext hWF _ p hp

theorem beliefWF_update {ag ag' : ThompsonSamplingMessenger}
    {t cu : String} {b : Bool} {arm : String} {r : Bool}
    (hWF : beliefWF ag) (h : ag.update t cu b arm r = some ag') :
    beliefWF ag' := by
  obtain ⟨row, ab, hrow, hab, hd⟩ := update_distributions h
  have hWF1 := beliefWF_ensureContext hWF (ThompsonSamplingMessenger._get_context_key t cu b)
  have hrowWF : ∀ q ∈ row, 1 ≤ q.2.1 ∧ 1 ≤ q.2.2 := hWF1 _ (alookup_mem hrow)
  have habB := hrowWF _ (alookup_mem hab)
  intro p hp
  rw [hd] at hp
  rcases mem_dictSet hp with rfl | hp'
  · intro q hq
    rcases mem_dictSet hq with rfl | hq'
    · have h1 := habB.1
      have h2 := habB.2
      cases r <;> constructor <;> simp <;> linarith
    · exact hrowWF q hq'
  · exact hWF1 p hp'

/-- C8: every reachable belief-table state satisfies `alpha ≥ 1 ∧ beta ≥ 1`
for every `(context, arm)` entry: rows are initialized with
`alpha = beta = 1`, and each non-raising `update` only ever bumps one of the
two parameters by one. -/
theorem c8_beta_parameters_ge_one :
    (∀ ag : ThompsonSamplingMessenger, TSReachable ag → beliefWF ag)
    ∧ (∀ (arms : List String) (q : String × (ℚ × ℚ)),
        q ∈ ThompsonSamplingMessenger.initDistRow arms → q.2 = (1, 1)) := by
  constructor
  · intro ag h
    induction h with
    | init => intro p hp; simp [ThompsonSamplingMessenger.init] at hp
    | select t cu b draw a hr heq ih => exact beliefWF_select ih heq
    | update t cu b arm r hr heq ih => exact beliefWF_update ih heq
  · intro arms q hq
    exact initDistRow_mem hq

/-- The concrete reachable agent of the C8 witness: the fresh agent after
one successful `update`. -/
def c8WitnessAgent : ThompsonSamplingMessenger :=
  { arms := ThompsonSamplingMessenger.defaultArms,
    distributions := [("recruiter_casual_True",
      [("formal", (1, 1)), ("casual", (2, 1)), ("connection_focused", (1, 1))])],
    total_selections := 0, total_successes := 1, arm_history := [] }

/-- Witness for C8: the invariant holds of the concrete agent reached by
one `update` from the fresh instance, and a concrete initial entry has
`alpha = beta = 1`. -/
theorem c8_beta_parameters_ge_one_witness :
    beliefWF c8WitnessAgent
    ∧ (("formal", ((1 : ℚ), (1 : ℚ))) : String × (ℚ × ℚ)).2 = (1, 1) := by
  have hupd : ThompsonSamplingMessenger.init.update "Recruiter" "casual" true "casual" true
      = some c8WitnessAgent := by
    simp [ThompsonSamplingMessenger.update, ThompsonSamplingMessenger.ensureContext,
      ThompsonSamplingMessenger.init, ThompsonSamplingMessenger._get_context_key,
      ThompsonSamplingMessenger.titleCategory, ThompsonSamplingMessenger.recruiterKw,
      ThompsonSamplingMessenger.executiveKw, ThompsonSamplingMessenger.directorKw,
      containsAny, containsSub, strLower, alookup, dictSet,
      ThompsonSamplingMessenger.initDistRow, ThompsonSamplingMessenger.defaultArms,
      pyBoolStr, c8WitnessAgent]
    norm_num
  exact ⟨c8_beta_parameters_ge_one.1 c8WitnessAgent
      (TSReachable.update "Recruiter" "casual" true "casual" true TSReachable.init hupd),
    c8_beta_parameters_ge_one.2 ThompsonSamplingMessenger.defaultArms
      ("formal", ((1 : ℚ), (1 : ℚ))) (by decide)⟩
